import Mathlib

/-!
Verification of the gfr pattern-search tool (src/main.rs) against its
specification. The development shallowly embeds the data model and the
core operations: pattern records and their JSON codec, the pattern
aggregation that builds a composite regex, the search selector and
tag/author filter, the save path, the tree-mode walk callback, and the
version-aware install reconciler. External collaborators (serde JSON,
the semver crate, HTTP fetch, the filesystem) are modelled explicitly:
JSON as an inductive value type, fetch as an oracle function, the
filesystem as an association of names to file contents, and disk effects
as an explicit event trace.
-/

namespace Gfr

deriving instance DecidableEq for Except

/-- Model of JSON values, the wire format handled by the serde collaborator. -/
inductive Json where
  | null
  | bool (b : Bool)
  | num (n : Int)
  | str (s : String)
  | arr (elems : List Json)
  | obj (fields : List (String × Json))
deriving Repr

/-- Error taxonomy of the tool. Each constructor corresponds to one
distinct error construction site in src/main.rs (the source uses anyhow
message strings; messages are abbreviated here, the sites are what
matters). -/
inductive GfrError where
  | notFound (name : String)
  | invalidFormat (msg : String)
  | missingRegex
  | noFilterSpecified
  | conflictingFilters
  | noMatches
  | invalidName (name : String)
  | alreadyExists (name : String)
  | malformedVersion (v : String)
  | fetchFailed (msg : String)
deriving Repr, DecidableEq

/-- The Pattern struct of src/main.rs lines 122-151: a named search
specification. Field names follow the Rust struct; the serde renames
(schema maps to the dollar-schema key, regex to the pattern key,
regex_list to the patterns key) live in the codec below. -/
structure Pattern where
  schema : Option String
  version : String
  author : Option String
  description : Option String
  tags : Option (List String)
  regex : Option String
  regex_list : Option (List String)
  file_types : Option (List String)
  ignore_case : Bool
  multiline : Bool
deriving Repr, DecidableEq

/-- Rust Vec join with a bar separator, as used by get_raw_pattern and by
the aggregation in run_search. -/
def joinBar : List String → String
  | [] => ""
  | [s] => s
  | s :: rest => s ++ "|" ++ joinBar rest

/-- Pattern.get_raw_pattern of src/main.rs lines 156-164: a single regex
is used verbatim; a non-empty regex list is wrapped as one non-capturing
group of the elements joined by a bar; every other shape is the
missing-regex error. -/
def get_raw_pattern (p : Pattern) : Except GfrError String :=
  match p.regex, p.regex_list with
  | some s, none => .ok s
  | none, some ps =>
      if ps.isEmpty then .error .missingRegex
      else .ok ("(?:" ++ joinBar ps ++ ")")
  | _, _ => .error .missingRegex

/-! ## The serde codec for Pattern

The struct carries deny_unknown_fields, a default of 1.0.0 for version,
and defaults of false for ignore_case and multiline; Option fields
accept null or absence as none. serde_json rejects unknown and duplicate
fields of a struct. -/

/-- Field lookup in a JSON object, first occurrence wins (serde reads
fields in order and rejects duplicates anyway). -/
def getField (fields : List (String × Json)) (k : String) : Option Json :=
  List.lookup k fields

/-- Decoder for an optional string field (serde Option of String). -/
def decOptStr : Option Json → Except String (Option String)
  | none => .ok none
  | some .null => .ok none
  | some (.str s) => .ok (some s)
  | some _ => .error "expected string or null"

/-- Decoder for a JSON array whose elements must all be strings. -/
def decStrList : List Json → Option (List String)
  | [] => some []
  | .str s :: rest => (decStrList rest).map (fun l => s :: l)
  | _ :: _ => none

/-- Decoder for an optional list-of-strings field (serde Option of Vec). -/
def decOptStrList : Option Json → Except String (Option (List String))
  | none => .ok none
  | some .null => .ok none
  | some (.arr xs) =>
      match decStrList xs with
      | some l => .ok (some l)
      | none => .error "expected array of strings"
  | some _ => .error "expected array of strings or null"

/-- Decoder for the version field: absent defaults to 1.0.0, present must
be a string. -/
def decVersionField : Option Json → Except String String
  | none => .ok "1.0.0"
  | some (.str s) => .ok s
  | some _ => .error "expected string"

/-- Decoder for a boolean field defaulting to false when absent. -/
def decBoolDefault : Option Json → Except String Bool
  | none => .ok false
  | some (.bool b) => .ok b
  | some _ => .error "expected boolean"

/-- The ten field keys the Pattern struct accepts on the wire. -/
def knownKeys : List String :=
  ["$schema", "version", "author", "description", "tags",
   "pattern", "patterns", "file_types", "ignore_case", "multiline"]

/-- Duplicate-key detector for a JSON object. -/
def dupKeys : List (String × Json) → Bool
  | [] => false
  | (k, _) :: rest => (rest.map Prod.fst).contains k || dupKeys rest

/-- Deserialization of a Pattern from JSON, modelling serde_json on the
struct of src/main.rs lines 122-151 with its attributes. -/
def Pattern.fromJson : Json → Except String Pattern
  | .obj fields =>
    if fields.all (fun f => knownKeys.contains f.1) then
      if dupKeys fields then .error "duplicate field"
      else do
        let schema ← decOptStr (getField fields "$schema")
        let version ← decVersionField (getField fields "version")
        let author ← decOptStr (getField fields "author")
        let description ← decOptStr (getField fields "description")
        let tags ← decOptStrList (getField fields "tags")
        let regex ← decOptStr (getField fields "pattern")
        let regex_list ← decOptStrList (getField fields "patterns")
        let file_types ← decOptStrList (getField fields "file_types")
        let ignore_case ← decBoolDefault (getField fields "ignore_case")
        let multiline ← decBoolDefault (getField fields "multiline")
        .ok { schema, version, author, description, tags,
              regex, regex_list, file_types, ignore_case, multiline }
    else .error "unknown field"
  | _ => .error "expected object"

/-- Encoding of an optional string (serde serializes none as null). -/
def optStrJson : Option String → Json
  | none => .null
  | some s => .str s

/-- Encoding of an optional list of strings. -/
def optStrListJson : Option (List String) → Json
  | none => .null
  | some l => .arr (l.map Json.str)

/-- Serialization of a Pattern to JSON, modelling serde_json on the
struct of src/main.rs lines 122-151 (all fields are emitted, none is
skipped, options serialize as null). -/
def Pattern.toJson (p : Pattern) : Json :=
  .obj [("$schema", optStrJson p.schema),
        ("version", .str p.version),
        ("author", optStrJson p.author),
        ("description", optStrJson p.description),
        ("tags", optStrListJson p.tags),
        ("pattern", optStrJson p.regex),
        ("patterns", optStrListJson p.regex_list),
        ("file_types", optStrListJson p.file_types),
        ("ignore_case", Json.bool p.ignore_case),
        ("multiline", Json.bool p.multiline)]

theorem decOptStr_optStrJson (x : Option String) :
    decOptStr (some (optStrJson x)) = .ok x := by
  cases x <;> rfl

theorem decStrList_map_str (l : List String) :
    decStrList (l.map Json.str) = some l := by
  induction l with
  | nil => rfl
  | cons s rest ih => simp [decStrList, ih]

theorem decOptStrList_optStrListJson (x : Option (List String)) :
    decOptStrList (some (optStrListJson x)) = .ok x := by
  cases x with
  | none => rfl
  | some l => simp [optStrListJson, decOptStrList, decStrList_map_str]

/-- Round trip of the serde codec: deserializing a serialized Pattern
recovers it field for field. -/
theorem Pattern.fromJson_toJson (p : Pattern) :
    Pattern.fromJson (Pattern.toJson p) = .ok p := by
  cases p with
  | mk schema version author description tags regex regex_list file_types ignore_case multiline =>
    simp [Pattern.toJson, Pattern.fromJson, getField, List.lookup, knownKeys, dupKeys,
          decOptStr_optStrJson, decOptStrList_optStrListJson, decVersionField, decBoolDefault,
          Bind.bind, Except.bind]

/-! ## Semantic versions

Model of the semver crate (an external collaborator): parse of
MAJOR.MINOR.PATCH with optional prerelease and build metadata, and the
semver precedence order. -/

/-- One prerelease identifier: numeric or alphanumeric. -/
inductive PreId where
  | num (n : Nat)
  | str (s : String)
deriving Repr, DecidableEq

/-- Value of a list of decimal digits. -/
def digitsToNat (cs : List Char) : Nat :=
  cs.foldl (fun a c => a * 10 + (c.toNat - 48)) 0

/-- Split a character list at every occurrence of a separator. -/
def splitOnChar (sep : Char) : List Char → List (List Char)
  | [] => [[]]
  | c :: rest =>
    if c == sep then [] :: splitOnChar sep rest
    else
      match splitOnChar sep rest with
      | [] => [[c]]
      | g :: gs => (c :: g) :: gs

/-- Split a character list at the first occurrence of a separator,
returning the part before it and, when the separator occurs, the part
after it. -/
def breakAtChar (sep : Char) : List Char → List Char × Option (List Char)
  | [] => ([], none)
  | c :: rest =>
    if c == sep then ([], some rest)
    else
      match breakAtChar sep rest with
      | (before, after) => (c :: before, after)

/-- Parse of a numeric identifier: non-empty, all digits, no leading zero. -/
def parseNumId : List Char → Option Nat
  | [] => none
  | '0' :: _ :: _ => none
  | cs => if cs.all Char.isDigit then some (digitsToNat cs) else none

/-- Characters allowed in prerelease and build identifiers. -/
def isIdentChar (c : Char) : Bool :=
  c.isAlphanum || c == '-'

/-- Parse of one prerelease identifier. -/
def parsePreId : List Char → Option PreId
  | [] => none
  | cs =>
    if cs.all Char.isDigit then
      match cs with
      | '0' :: _ :: _ => none
      | _ => some (.num (digitsToNat cs))
    else if cs.all isIdentChar then some (.str (String.mk cs))
    else none

/-- A parsed semantic version. Build metadata is validated by parse but
discarded, as it never affects precedence. -/
structure Version where
  major : Nat
  minor : Nat
  patch : Nat
  pre : List PreId
deriving Repr, DecidableEq

/-- Validity of the build-metadata suffix: non-empty dot-separated
identifiers of alphanumerics and hyphens. -/
def buildOk (cs : List Char) : Bool :=
  (splitOnChar '.' cs).all (fun id => decide (id ≠ []) && id.all isIdentChar)

/-- Parse of the dotted prerelease part. -/
def parsePreList : List (List Char) → Option (List PreId)
  | [] => some []
  | g :: gs =>
    match parsePreId g, parsePreList gs with
    | some i, some is => some (i :: is)
    | _, _ => none

/-- Parse of the numeric core and optional prerelease, after the build
suffix has been removed. -/
def parseCorePre (cs : List Char) : Option Version :=
  match breakAtChar '-' cs with
  | (core, prePart) =>
    match (match prePart with
           | none => some ([] : List PreId)
           | some p => parsePreList (splitOnChar '.' p)) with
    | none => none
    | some pre =>
      match splitOnChar '.' core with
      | [a, b, c] =>
        match parseNumId a, parseNumId b, parseNumId c with
        | some ma, some mi, some pa =>
          some { major := ma, minor := mi, patch := pa, pre := pre }
        | _, _, _ => none
      | _ => none

/-- Version.parse of the semver crate: strip and validate the build
suffix, then parse the core and prerelease. -/
def Version.parse (s : String) : Option Version :=
  match breakAtChar '+' s.toList with
  | (noBuild, none) => parseCorePre noBuild
  | (noBuild, some b) => if buildOk b then parseCorePre noBuild else none

/-- Precedence order on prerelease identifiers: numeric before
alphanumeric, numeric by value, alphanumeric lexically. -/
def preIdLt : PreId → PreId → Bool
  | .num a, .num b => a < b
  | .num _, .str _ => true
  | .str _, .num _ => false
  | .str a, .str b => decide (a < b)

/-- Precedence order on prerelease identifier lists: a proper prefix is
smaller, otherwise the first differing identifier decides. -/
def preListLt : List PreId → List PreId → Bool
  | [], [] => false
  | [], _ :: _ => true
  | _ :: _, [] => false
  | a :: as, b :: bs => preIdLt a b || (a == b && preListLt as bs)

/-- The strict semver precedence order. -/
def Version.lt (a b : Version) : Bool :=
  if a.major ≠ b.major then a.major < b.major
  else if a.minor ≠ b.minor then a.minor < b.minor
  else if a.patch ≠ b.patch then a.patch < b.patch
  else match a.pre, b.pre with
    | _, [] => decide (a.pre ≠ [])
    | [], _ :: _ => false
    | as, bs => preListLt as bs

/-! ## The repository on disk

The pattern directory is modelled as a flag for its existence and an
association of pattern names to JSON file contents (the names are the
stems of the json files the directory scan of src/main.rs considers,
the manifest file excluded by its reserved name). -/

/-- The pattern directory as seen by the repository operations. -/
structure Fs where
  dirExists : Bool
  files : List (String × Json)
deriving Repr

/-- load_pattern of src/main.rs lines 596-607: a missing file is the
not-found error, a file that fails to deserialize is the invalid-format
error. -/
def load_pattern (name : String) (fs : Fs) : Except GfrError Pattern :=
  match List.lookup name fs.files with
  | none => .error (.notFound name)
  | some j =>
    match Pattern.fromJson j with
    | .ok p => .ok p
    | .error msg => .error (.invalidFormat msg)

/-- The loop body of find_patterns_by_filter, src/main.rs lines 632-655:
a file that fails to parse is skipped silently; a parsed record is
appended when the author filter is absent or equal and the tags filter
is absent or every requested tag is contained in the present tags list. -/
def filter_step (tags : Option (List String)) (author : Option String)
    (acc : List Pattern) (nj : String × Json) : List Pattern :=
  match Pattern.fromJson nj.2 with
  | .error _ => acc
  | .ok p =>
    let author_match : Bool := match author with
      | none => true
      | some a => p.author == some a
    let tags_match : Bool := match tags with
      | none => true
      | some search_tags =>
        match p.tags with
        | none => false
        | some p_tags => search_tags.all (fun st => p_tags.contains st)
    if author_match && tags_match then acc ++ [p] else acc

/-- find_patterns_by_filter of src/main.rs lines 609-664. With a name,
the single named record is loaded and errors propagate. Without a name,
a missing pattern directory yields the empty selection; otherwise every
parseable record that passes the author and tags checks is retained in
directory order, and an empty retained set is the no-matches error. -/
def find_patterns_by_filter (name : Option String) (tags : Option (List String))
    (author : Option String) (fs : Fs) : Except GfrError (List Pattern) :=
  match name with
  | some n =>
    match load_pattern n fs with
    | .ok p => .ok [p]
    | .error e => .error e
  | none =>
    if fs.dirExists = false then .ok []
    else
      let matched := fs.files.foldl (filter_step tags author) []
      if matched.isEmpty then .error .noMatches else .ok matched

/-- The selector checks at the top of run_search, src/main.rs lines
247-261: no filter at all is rejected, a name combined with tags or
author is rejected, and otherwise the filter runs. -/
def select_patterns (pattern_name : Option String) (tags : Option (List String))
    (author : Option String) (fs : Fs) : Except GfrError (List Pattern) :=
  if pattern_name.isNone && tags.isNone && author.isNone then
    .error .noFilterSpecified
  else if pattern_name.isSome && (tags.isSome || author.isSome) then
    .error .conflictingFilters
  else
    find_patterns_by_filter pattern_name tags author fs

/-! ## The save path -/

/-- The flags of the save subcommand, src/main.rs lines 95-119. -/
structure SaveArgs where
  name : String
  pattern : String
  description : Option String
  file_types : Option (List String)
  ignore_case : Bool
  multiline : Bool
  author : Option String
  tags : Option (List String)
deriving Repr, DecidableEq

/-- The published schema URL baked into saved patterns. -/
def DEFAULT_PATTERN_SCHEMA_URL : String :=
  "https://raw.githubusercontent.com/Kr1shna4garwal/gfr-patterns/refs/heads/main/schemas/pattern.schema.json"

/-- Name validity check of run_save: a name containing a dot, a slash or
a backslash is rejected. -/
def invalidNameB (s : String) : Bool :=
  s.toList.any (fun c => c == '.' || c == '/' || c == '\\')

/-- The record run_save constructs from its flags, src/main.rs lines
542-553. -/
def mkPattern (args : SaveArgs) : Pattern :=
  { schema := some DEFAULT_PATTERN_SCHEMA_URL,
    version := "1.0.0",
    author := args.author,
    description := args.description,
    tags := args.tags,
    regex := some args.pattern,
    regex_list := none,
    file_types := args.file_types,
    ignore_case := args.ignore_case,
    multiline := args.multiline }

/-- run_save of src/main.rs lines 523-565: reject an invalid name before
touching the filesystem, then create the directory, then reject an
existing file, then write the serialized record. The returned Fs is the
state after the call. -/
def run_save (args : SaveArgs) (fs : Fs) : Fs × Except GfrError Unit :=
  if invalidNameB args.name then (fs, .error (.invalidName args.name))
  else
    let fs1 : Fs := { fs with dirExists := true }
    if (List.lookup args.name fs1.files).isSome then
      (fs1, .error (.alreadyExists args.name))
    else
      ({ fs1 with files := (args.name, Pattern.toJson (mkPattern args)) :: fs1.files },
       .ok ())

/-! ## Pattern aggregation

The aggregation loop of run_search, src/main.rs lines 270-296: the raw
regexes are collected in order, the file types are unioned, the two
flags are or-folded, and the final searchable expression gets an inline
flag group exactly when a flag is set. -/

/-- The composite matcher specification the aggregation builds. -/
structure Composite where
  all_regexes : List String
  all_file_types : List String
  combined_ignore_case : Bool
  combined_multiline : Bool
deriving Repr, DecidableEq

/-- Set-style insertion used to model the HashSet of file types. -/
def setInsert (l : List String) (x : String) : List String :=
  if l.contains x then l else l ++ [x]

/-- Union of an optional file-type list into the accumulated set. -/
def extendFileTypes (acc : List String) : Option (List String) → List String
  | none => acc
  | some fts => fts.foldl setInsert acc

/-- The aggregation loop over the selected patterns; the first failing
get_raw_pattern aborts via the question-mark operator. -/
def aggregate : List Pattern → Except GfrError Composite
  | [] => .ok { all_regexes := [], all_file_types := [],
                combined_ignore_case := false, combined_multiline := false }
  | p :: ps =>
    match get_raw_pattern p with
    | .error e => .error e
    | .ok raw =>
      match aggregate ps with
      | .error e => .error e
      | .ok c =>
        .ok { all_regexes := raw :: c.all_regexes,
              all_file_types := extendFileTypes c.all_file_types p.file_types,
              combined_ignore_case := p.ignore_case || c.combined_ignore_case,
              combined_multiline := p.multiline || c.combined_multiline }

/-- The flags string: the letter i is pushed first, then the letter s. -/
def flagsOf (c : Composite) : String :=
  (if c.combined_ignore_case then "i" else "") ++ (if c.combined_multiline then "s" else "")

/-- The combined regex: all raw patterns joined by a bar, with no outer
grouping. -/
def combinedRegex (c : Composite) : String :=
  joinBar c.all_regexes

/-- The final searchable expression of src/main.rs lines 292-296: the
combined regex, prefixed by an inline flag group only when a flag is
set. -/
def final_pattern (c : Composite) : String :=
  if flagsOf c = "" then combinedRegex c
  else "(?" ++ flagsOf c ++ ")" ++ combinedRegex c

/-! ## Tree-mode walk

The parallel walk of run_search, src/main.rs lines 318-359, modelled at
the granularity of its per-entry callback: the matcher compile happens
once before the walk; the callback turns every entry outcome into
diagnostics plus a walk-state and always continues. The per-file scan is
an oracle, as regex execution is an external capability. -/

/-- One entry of the remote index. -/
structure IndexPattern where
  name : String
  version : String
  url : String
deriving Repr, DecidableEq

/-- The installed manifest: pattern name to installed version string. -/
def Manifest := List (String × String)
deriving Repr, DecidableEq

/-- HashMap-style insert: the new binding replaces any old one. -/
def mapInsert (m : Manifest) (k v : String) : Manifest :=
  (k, v) :: (List.filter (fun p => !(p.1 == k)) m)

/-- The in-memory state of a reconciliation pass. -/
structure InstallState where
  manifest : Manifest
  added : Int
  updated : Int
deriving Repr, DecidableEq

/-- Disk and network effects of a reconciliation pass, in order. -/
inductive Event where
  | createdPatternDir
  | fetched (url : String)
  | wrotePattern (name : String) (body : Json)
  | wroteManifest (m : Manifest)
deriving Repr

/-- The should-install test of src/main.rs lines 404-406: install when
the name is absent, when the recorded version does not parse, or when
the recorded version is strictly below the remote one. -/
def should_install (m : Manifest) (name : String) (remote : Version) : Bool :=
  match (List.lookup name m).bind (fun s => Version.parse s) with
  | none => true
  | some localVersion => Version.lt localVersion remote

/-- Processing of one remote index entry, src/main.rs lines 400-443:
parse the remote version (abort on failure), test should-install, and
when installing fetch the body, validate it as a Pattern, write it, and
update the manifest and counters. The event list records what reached
the network and the disk. -/
def installStep (fetch : String → Except GfrError Json) (st : InstallState)
    (e : IndexPattern) : List Event × Except GfrError InstallState :=
  match Version.parse e.version with
  | none => ([], .error (.malformedVersion e.version))
  | some remote =>
    if should_install st.manifest e.name remote then
      match fetch e.url with
      | .error err => ([.fetched e.url], .error err)
      | .ok body =>
        match Pattern.fromJson body with
        | .error msg => ([.fetched e.url], .error (.invalidFormat msg))
        | .ok _ =>
          ([.fetched e.url, .wrotePattern e.name body],
           .ok { manifest := mapInsert st.manifest e.name e.version,
                 added := if (List.lookup e.name st.manifest).isSome
                          then st.added else st.added + 1,
                 updated := if (List.lookup e.name st.manifest).isSome
                            then st.updated + 1 else st.updated })
    else ([], .ok st)

/-- Sequential processing of the index entries, stopping at the first
failing entry and keeping the events emitted up to that point. -/
def processEntries (fetch : String → Except GfrError Json) :
    InstallState → List IndexPattern → List Event × Except GfrError InstallState
  | st, [] => ([], .ok st)
  | st, e :: rest =>
    match installStep fetch st e with
    | (evts, .error msg) => (evts, .error msg)
    | (evts, .ok st1) =>
      match processEntries fetch st1 rest with
      | (evts1, res) => (evts ++ evts1, res)

/-- load_manifest of src/main.rs lines 666-673: an absent file is the
empty manifest, a present file must parse as a string-to-string map. -/
def manifestEntries : List (String × Json) → Option Manifest
  | [] => some []
  | (k, .str v) :: rest => (manifestEntries rest).map (fun m => (k, v) :: m)
  | _ :: _ => none

/-- Deserialization of the manifest object. -/
def manifestFromJson : Json → Except String Manifest
  | .obj fields =>
    match manifestEntries fields with
    | some m => .ok m
    | none => .error "expected string values"
  | _ => .error "expected object"

/-- Manifest loading with an optional file content. -/
def load_manifest : Option Json → Except String Manifest
  | none => .ok []
  | some j => manifestFromJson j

/-- run_install of src/main.rs lines 372-454 after the index fetch: the
pattern directory is created, a manifest that is absent or fails to load
becomes the empty manifest, the entries are processed in order, and on
success the manifest is persisted as the single final write. -/
def run_install (fetch : String → Except GfrError Json) (manifestFile : Option Json)
    (entries : List IndexPattern) : List Event × Except GfrError InstallState :=
  match processEntries fetch
      { manifest := ((load_manifest manifestFile).toOption).getD [],
        added := 0, updated := 0 } entries with
  | (evts, .error e) => (Event.createdPatternDir :: evts, .error e)
  | (evts, .ok st) =>
    (Event.createdPatternDir :: evts ++ [Event.wroteManifest st.manifest], .ok st)

/-- Count of manifest writes in a trace. -/
def countMW : List Event → Nat
  | [] => 0
  | .wroteManifest _ :: rest => countMW rest + 1
  | _ :: rest => countMW rest

/-- Count of fetch attempts in a trace. -/
def countFetched : List Event → Nat
  | [] => 0
  | .fetched _ :: rest => countFetched rest + 1
  | _ :: rest => countFetched rest

/-- Every pattern body written in the trace deserializes as a Pattern. -/
def writesValid : List Event → Bool
  | [] => true
  | .wrotePattern _ j :: rest => (Pattern.fromJson j).isOk && writesValid rest
  | _ :: rest => writesValid rest

/-! ## Theorems for the claims -/

/-- Claim C7: the search selector fails with the conflicting-filters
error whenever a pattern name is given together with a tags filter or an
author filter, fails with the no-filter-specified error when none of
name, tags and author is given, and with only a name resolves to exactly
the one named record, propagating any load error. -/
theorem search_selector_spec (fs : Fs) (tags : Option (List String))
    (author : Option String) :
    select_patterns none none none fs = .error .noFilterSpecified ∧
    (∀ n : String, (tags.isSome || author.isSome) = true →
      select_patterns (some n) tags author fs = .error .conflictingFilters) ∧
    (∀ n : String, select_patterns (some n) none none fs =
      (load_pattern n fs).map (fun p => [p])) := by
  refine ⟨rfl, ?_, ?_⟩
  · intro n h
    simp [select_patterns, h]
  · intro n
    simp only [select_patterns, find_patterns_by_filter]
    cases load_pattern n fs <;> simp [Except.map]

theorem search_selector_spec_witness :
    ((some ["web"] : Option (List String)).isSome ||
      (none : Option String).isSome) = true ∧
    select_patterns (some "x") (some ["web"]) none ⟨true, []⟩ =
      .error .conflictingFilters :=
  ⟨rfl, (search_selector_spec ⟨true, []⟩ (some ["web"]) none).2.1 "x" rfl⟩

/-- Claim C10: run_save rejects every pattern name containing a dot, a
slash or a backslash with an error before creating the repository
directory or writing any file, leaving the filesystem unchanged. -/
theorem run_save_rejects_invalid_name (args : SaveArgs) (fs : Fs)
    (h : invalidNameB args.name = true) :
    run_save args fs = (fs, .error (.invalidName args.name)) := by
  simp [run_save, h]

theorem run_save_rejects_invalid_name_witness :
    invalidNameB "a.b" = true ∧
    run_save ⟨"a.b", "x", none, none, false, false, none, none⟩ ⟨false, []⟩ =
      (⟨false, []⟩, .error (.invalidName "a.b")) :=
  ⟨rfl, run_save_rejects_invalid_name ⟨"a.b", "x", none, none, false, false, none, none⟩
    ⟨false, []⟩ rfl⟩

/-- Claim C8: saving a record under a fresh valid name and loading it
back by that name yields a record field for field equal to the record
that was written. -/
theorem save_then_load_round_trip (args : SaveArgs) (fs : Fs)
    (h1 : invalidNameB args.name = false)
    (h2 : List.lookup args.name fs.files = none) :
    (run_save args fs).2 = .ok () ∧
    load_pattern args.name (run_save args fs).1 = .ok (mkPattern args) := by
  unfold run_save
  simp only [h1, Bool.false_eq_true, if_false, h2, Option.isSome_none, if_false]
  refine ⟨trivial, ?_⟩
  simp [load_pattern, List.lookup, Pattern.fromJson_toJson]

theorem save_then_load_round_trip_witness :
    invalidNameB "xss" = false ∧
    List.lookup "xss" (Fs.mk false []).files = none ∧
    (run_save ⟨"xss", "alert", none, none, true, false, some "me", some ["web"]⟩
      ⟨false, []⟩).2 = .ok () ∧
    load_pattern "xss"
      (run_save ⟨"xss", "alert", none, none, true, false, some "me", some ["web"]⟩
        ⟨false, []⟩).1 =
      .ok (mkPattern ⟨"xss", "alert", none, none, true, false, some "me", some ["web"]⟩) :=
  ⟨rfl, rfl,
   (save_then_load_round_trip ⟨"xss", "alert", none, none, true, false, some "me", some ["web"]⟩
     ⟨false, []⟩ rfl rfl).1,
   (save_then_load_round_trip ⟨"xss", "alert", none, none, true, false, some "me", some ["web"]⟩
     ⟨false, []⟩ rfl rfl).2⟩

/-- Claim C3 counterexample: a pattern file carrying both regex sources
deserializes successfully, so load returns it instead of failing with
the invalid-format error the claim demands; the invariant is only
enforced later, by get_raw_pattern. -/
theorem load_pattern_accepts_both_regex_sources :
    load_pattern "x"
      ⟨true, [("x", Json.obj [("pattern", Json.str "a"),
                              ("patterns", Json.arr [Json.str "b"])])]⟩ =
      .ok ⟨none, "1.0.0", none, none, none, some "a", some ["b"], none, false, false⟩ ∧
    get_raw_pattern
      ⟨none, "1.0.0", none, none, none, some "a", some ["b"], none, false, false⟩ =
      .error .missingRegex :=
  ⟨rfl, rfl⟩

/-- Claim C3 as amended: load fails with the not-found error exactly when
the file is absent and with the invalid-format error exactly when
deserialization fails; deserialization does not enforce the
exactly-one-regex-source invariant, which is instead enforced by the
combine path: get_raw_pattern fails with the missing-regex error exactly
when the record has neither regex field, both fields, or an empty
patterns list. -/
theorem load_pattern_error_conditions (name : String) (fs : Fs) (p : Pattern) :
    (List.lookup name fs.files = none →
      load_pattern name fs = .error (.notFound name)) ∧
    (∀ j msg, List.lookup name fs.files = some j → Pattern.fromJson j = .error msg →
      load_pattern name fs = .error (.invalidFormat msg)) ∧
    (∀ j q, List.lookup name fs.files = some j → Pattern.fromJson j = .ok q →
      load_pattern name fs = .ok q) ∧
    ((get_raw_pattern p = .error .missingRegex) ↔
      ((p.regex = none ∧ p.regex_list = none) ∨
       (p.regex ≠ none ∧ p.regex_list ≠ none) ∨
       (p.regex = none ∧ p.regex_list = some []))) := by
  refine ⟨?_, ?_, ?_, ?_⟩
  · intro h
    simp [load_pattern, h]
  · intro j msg hj hm
    simp [load_pattern, hj, hm]
  · intro j q hj hq
    simp [load_pattern, hj, hq]
  · cases hr : p.regex with
    | some s =>
      cases hl : p.regex_list with
      | none => simp [get_raw_pattern, hr, hl]
      | some l => simp [get_raw_pattern, hr, hl]
    | none =>
      cases hl : p.regex_list with
      | none => simp [get_raw_pattern, hr, hl]
      | some l =>
        cases l with
        | nil => simp [get_raw_pattern, hr, hl]
        | cons a as => simp [get_raw_pattern, hr, hl]

theorem load_pattern_error_conditions_witness :
    List.lookup "gone" (Fs.mk true []).files = none ∧
    load_pattern "gone" ⟨true, []⟩ = .error (.notFound "gone") :=
  ⟨rfl, (load_pattern_error_conditions "gone" ⟨true, []⟩
    ⟨none, "1.0.0", none, none, none, none, none, none, false, false⟩).1 rfl⟩

/-! ## Claim C5: the tag and author filter -/

/-- The retention condition in the words of the amended claim C5: the
author filter is absent or exactly equals the author of the record, and
the tags filter is absent or the record carries a tags list containing
every requested tag. -/
def retain_spec (tags : Option (List String)) (author : Option String)
    (p : Pattern) : Bool :=
  (author.isNone || p.author == author) &&
  (tags.isNone || (p.tags.isSome && (tags.getD []).all (fun t => (p.tags.getD []).contains t)))

/-- What one repository file contributes to the retained set: nothing
when it fails to parse or fails the retention condition, its record
otherwise. -/
def retainF (tags : Option (List String)) (author : Option String)
    (nj : String × Json) : Option Pattern :=
  match Pattern.fromJson nj.2 with
  | .error _ => none
  | .ok p => if retain_spec tags author p then some p else none

/-- The retained set of the amended claim: the parseable records passing
the retention condition, in directory order. -/
def retainedRecords (tags : Option (List String)) (author : Option String)
    (fs : Fs) : List Pattern :=
  fs.files.filterMap (retainF tags author)

theorem filter_step_push (tags : Option (List String)) (author : Option String)
    (acc : List Pattern) (nj : String × Json) :
    filter_step tags author acc nj =
      match retainF tags author nj with
      | none => acc
      | some v => acc ++ [v] := by
  unfold filter_step retainF
  cases Pattern.fromJson nj.2 with
  | error e => rfl
  | ok p =>
    have hcond : ((match author with
        | none => true
        | some a => p.author == some a) &&
       (match tags with
        | none => true
        | some search_tags =>
          match p.tags with
          | none => false
          | some p_tags => search_tags.all (fun st => p_tags.contains st))) =
        retain_spec tags author p := by
      unfold retain_spec
      cases author <;> cases tags <;> cases hpt : p.tags <;> simp [hpt]
    simp only [hcond]
    cases hq : retain_spec tags author p <;> simp [hq]

theorem foldl_filter_step (tags : Option (List String)) (author : Option String)
    (l : List (String × Json)) :
    ∀ acc, l.foldl (filter_step tags author) acc = acc ++ l.filterMap (retainF tags author) := by
  induction l with
  | nil => intro acc; simp
  | cons nj rest ih =>
    intro acc
    rw [List.foldl_cons, filter_step_push, List.filterMap_cons]
    cases hf : retainF tags author nj with
    | none => simp [ih]
    | some v => simp [ih]

/-- Claim C5 counterexample: with an empty requested-tags list and a
record carrying no tags field, the claim as stated retains the record
(an empty set of requested tags is a subset of anything), but the code
requires the record to carry a tags list, retains nothing, and fails
with the no-matches error. -/
theorem filter_empty_tags_counterexample :
    Pattern.fromJson (Json.obj [("pattern", Json.str "a")]) =
      .ok ⟨none, "1.0.0", none, none, none, some "a", none, none, false, false⟩ ∧
    find_patterns_by_filter none (some []) none
      ⟨true, [("rec", Json.obj [("pattern", Json.str "a")])]⟩ = .error .noMatches ∧
    find_patterns_by_filter none (some []) none
      ⟨true, [("rec", Json.obj [("pattern", Json.str "a")])]⟩ ≠
      .ok [⟨none, "1.0.0", none, none, none, some "a", none, none, false, false⟩] :=
  ⟨rfl, rfl, by decide⟩

/-- Claim C5 as amended: when no name is given and a tags or author
filter is given, the filter succeeds with the empty selection when the
pattern directory is absent; otherwise it retains exactly the parseable
records for which the author filter is absent or exactly equal and the
tags filter is absent or matched by a present tags list containing every
requested tag, unparseable records are skipped silently, and it fails
with the no-matches error exactly when this retained set is empty. -/
theorem find_patterns_filter_spec (tags : Option (List String))
    (author : Option String) (fs : Fs)
    (h : (tags.isSome || author.isSome) = true) :
    find_patterns_by_filter none tags author fs =
      if fs.dirExists = false then .ok []
      else if retainedRecords tags author fs = [] then .error .noMatches
      else .ok (retainedRecords tags author fs) := by
  have key : fs.files.foldl (filter_step tags author) [] = retainedRecords tags author fs := by
    rw [foldl_filter_step]
    simp [retainedRecords]
  cases hd : fs.dirExists with
  | false => simp [find_patterns_by_filter, hd]
  | true =>
    simp only [find_patterns_by_filter, key, hd]
    cases hm : retainedRecords tags author fs with
    | nil => simp [hm]
    | cons r rs => simp [hm]

theorem find_patterns_filter_spec_witness :
    find_patterns_by_filter none (some ["web"]) none
      ⟨true, [("rec", Json.obj [("pattern", Json.str "a"),
                                ("tags", Json.arr [Json.str "web", Json.str "security"])])]⟩ =
      .ok [⟨none, "1.0.0", none, none, some ["web", "security"], some "a",
            none, none, false, false⟩] :=
  (find_patterns_filter_spec (some ["web"]) none
      ⟨true, [("rec", Json.obj [("pattern", Json.str "a"),
                                ("tags", Json.arr [Json.str "web", Json.str "security"])])]⟩
      rfl).trans (by decide)

/-! ## Claim C1: the composite regex and its flag group -/

theorem append_ne_empty_left (a b : String) (h : a ≠ "") : a ++ b ≠ "" := by
  intro hab
  apply h
  apply String.ext
  have hd := congrArg String.data hab
  rw [String.data_append] at hd
  have h2 := (List.append_eq_nil.mp hd).1
  simpa using h2

theorem joinBar_ne_empty (l : List String) (hne : l ≠ []) (h : ∀ s ∈ l, s ≠ "") :
    joinBar l ≠ "" := by
  match l with
  | [] => exact absurd rfl hne
  | [s] => simpa [joinBar] using h s (by simp)
  | s :: t :: rest =>
    show s ++ "|" ++ joinBar (t :: rest) ≠ ""
    exact append_ne_empty_left _ _ (append_ne_empty_left _ _ (h s (by simp)))

theorem get_raw_pattern_ne_empty (p : Pattern) (r : String)
    (h : get_raw_pattern p = .ok r)
    (hs : ∀ s, p.regex = some s → s ≠ "") : r ≠ "" := by
  cases hr : p.regex with
  | some s =>
    cases hl : p.regex_list with
    | none =>
      have h2 : get_raw_pattern p = .ok s := by simp [get_raw_pattern, hr, hl]
      rw [h2] at h
      injection h with h3
      exact h3 ▸ hs s hr
    | some l =>
      have h2 : get_raw_pattern p = .error .missingRegex := by simp [get_raw_pattern, hr, hl]
      rw [h2] at h
      cases h
  | none =>
    cases hl : p.regex_list with
    | none =>
      have h2 : get_raw_pattern p = .error .missingRegex := by simp [get_raw_pattern, hr, hl]
      rw [h2] at h
      cases h
    | some l =>
      cases l with
      | nil =>
        have h2 : get_raw_pattern p = .error .missingRegex := by simp [get_raw_pattern, hr, hl]
        rw [h2] at h
        cases h
      | cons a as =>
        have h2 : get_raw_pattern p = .ok ("(?:" ++ joinBar (a :: as) ++ ")") := by
          simp [get_raw_pattern, hr, hl]
        rw [h2] at h
        injection h with h3
        rw [← h3]
        exact append_ne_empty_left _ _ (append_ne_empty_left _ _ (by decide))

theorem aggregate_of_forall₂ (ps : List Pattern) (raws : List String)
    (h : List.Forall₂ (fun p r => get_raw_pattern p = .ok r) ps raws) :
    ∃ c, aggregate ps = .ok c ∧ c.all_regexes = raws ∧
      c.combined_ignore_case = ps.any (fun p => p.ignore_case) ∧
      c.combined_multiline = ps.any (fun p => p.multiline) := by
  induction h with
  | nil => exact ⟨_, rfl, rfl, rfl, rfl⟩
  | @cons p r ps1 raws1 hpr htail ih =>
    obtain ⟨c, hc, h1, h2, h3⟩ := ih
    refine ⟨⟨r :: c.all_regexes, extendFileTypes c.all_file_types p.file_types,
             p.ignore_case || c.combined_ignore_case,
             p.multiline || c.combined_multiline⟩, ?_, ?_, ?_, ?_⟩
    · simp [aggregate, hpr, hc]
    · simp [h1]
    · simp [h2]
    · simp [h3]

theorem forall₂_raws_ne_empty (ps : List Pattern) (raws : List String)
    (h : List.Forall₂ (fun p r => get_raw_pattern p = .ok r) ps raws) :
    (∀ p ∈ ps, ∀ s, p.regex = some s → s ≠ "") → ∀ r ∈ raws, r ≠ "" := by
  induction h with
  | nil => intro _ r hr; cases hr
  | @cons p r ps1 raws1 hpr htail ih =>
    intro hs x hx
    rcases List.mem_cons.mp hx with rfl | h2
    · exact get_raw_pattern_ne_empty p x hpr (fun s hsx => hs p (List.mem_cons_self _ _) s hsx)
    · exact ih (fun q hq s hsx => hs q (List.mem_cons_of_mem _ hq) s hsx) x h2

/-- Claim C1 counterexample: a single valid record whose single regex is
the empty string combines to an empty combined regex, so the combined
regex of a non-empty list of valid records can be the empty string. -/
theorem combine_empty_regex_counterexample :
    get_raw_pattern ⟨none, "1.0.0", none, none, none, some "", none, none, false, false⟩ =
      .ok "" ∧
    aggregate [⟨none, "1.0.0", none, none, none, some "", none, none, false, false⟩] =
      .ok ⟨[""], [], false, false⟩ ∧
    combinedRegex ⟨[""], [], false, false⟩ = "" :=
  ⟨rfl, rfl, rfl⟩

/-- Claim C1 as amended: for a non-empty list of valid records the
combination succeeds; a single regex is used verbatim and a non-empty
regex list is wrapped as one non-capturing group of the elements joined
by a bar; the combined regex is the bar-join of the raw patterns with no
outer grouping, and it is non-empty provided every record supplying a
single regex supplies a non-empty one; the final searchable expression
carries exactly one inline flag group, containing the letter i exactly
when some record sets ignore-case and the letter s exactly when some
record sets multiline, in that order, and no flag group at all when no
record sets either flag. -/
theorem combine_composite_spec (ps : List Pattern) (raws : List String)
    (hne : ps ≠ [])
    (hraws : List.Forall₂ (fun p r => get_raw_pattern p = .ok r) ps raws)
    (hsingle : ∀ p ∈ ps, ∀ s, p.regex = some s → s ≠ "") :
    (∀ q : Pattern, ∀ s, q.regex = some s → q.regex_list = none →
      get_raw_pattern q = .ok s) ∧
    (∀ q : Pattern, ∀ l, q.regex = none → q.regex_list = some l → l ≠ [] →
      get_raw_pattern q = .ok ("(?:" ++ joinBar l ++ ")")) ∧
    (∃ c, aggregate ps = .ok c ∧
      c.all_regexes = raws ∧
      combinedRegex c = joinBar raws ∧
      combinedRegex c ≠ "" ∧
      final_pattern c =
        (if (ps.any (fun p => p.ignore_case) || ps.any (fun p => p.multiline)) = true then
           "(?" ++ (if ps.any (fun p => p.ignore_case) then "i" else "")
                ++ (if ps.any (fun p => p.multiline) then "s" else "") ++ ")"
                ++ combinedRegex c
         else combinedRegex c)) := by
  refine ⟨?_, ?_, ?_⟩
  · intro q s h1 h2
    simp [get_raw_pattern, h1, h2]
  · intro q l h1 h2 h3
    cases l with
    | nil => exact absurd rfl h3
    | cons a as => simp [get_raw_pattern, h1, h2]
  · obtain ⟨c, hc, h1, h2, h3⟩ := aggregate_of_forall₂ ps raws hraws
    have hrawsne : raws ≠ [] := by
      cases hraws with
      | nil => exact absurd rfl hne
      | cons _ _ => simp
    have hall := forall₂_raws_ne_empty ps raws hraws hsingle
    refine ⟨c, hc, h1, ?_, ?_, ?_⟩
    · unfold combinedRegex
      rw [h1]
    · unfold combinedRegex
      rw [h1]
      exact joinBar_ne_empty raws hrawsne hall
    · unfold final_pattern flagsOf
      rw [h2, h3]
      cases hI : ps.any (fun p => p.ignore_case) <;>
        cases hM : ps.any (fun p => p.multiline) <;> rfl

theorem combine_composite_spec_witness :
    ([⟨none, "1.0.0", none, none, none, some "abc", none, none, true, false⟩,
      ⟨none, "1.0.0", none, none, none, none, some ["x", "y"], none, false, true⟩] ≠
      ([] : List Pattern)) ∧
    (∃ c, aggregate
        [⟨none, "1.0.0", none, none, none, some "abc", none, none, true, false⟩,
         ⟨none, "1.0.0", none, none, none, none, some ["x", "y"], none, false, true⟩] = .ok c ∧
      c.all_regexes = ["abc", "(?:x|y)"] ∧
      combinedRegex c = joinBar ["abc", "(?:x|y)"] ∧
      combinedRegex c ≠ "" ∧
      final_pattern c = "(?is)" ++ combinedRegex c) := by
  have h := combine_composite_spec
    [⟨none, "1.0.0", none, none, none, some "abc", none, none, true, false⟩,
     ⟨none, "1.0.0", none, none, none, none, some ["x", "y"], none, false, true⟩]
    ["abc", "(?:x|y)"] (by simp)
    (.cons rfl (.cons rfl .nil))
    (by
      intro p hp s hs
      rcases List.mem_cons.mp hp with rfl | hp1
      · cases hs; decide
      · rcases List.mem_cons.mp hp1 with rfl | hp2
        · cases hs
        · cases hp2)
  obtain ⟨-, -, c, hc, h1, h2, h3, hfp⟩ := h
  exact ⟨by simp, c, hc, h1, h2, h3, hfp⟩

/-! ## Claims C2, C6 and C9: the install reconciler -/

theorem countMW_append (a b : List Event) : countMW (a ++ b) = countMW a + countMW b := by
  induction a with
  | nil => simp [countMW]
  | cons e rest ih => cases e <;> simp [countMW, ih] <;> omega

theorem countFetched_append (a b : List Event) :
    countFetched (a ++ b) = countFetched a + countFetched b := by
  induction a with
  | nil => simp [countFetched]
  | cons e rest ih => cases e <;> simp [countFetched, ih] <;> omega

theorem writesValid_append (a b : List Event) :
    writesValid (a ++ b) = (writesValid a && writesValid b) := by
  induction a with
  | nil => simp [writesValid]
  | cons e rest ih => cases e <;> simp [writesValid, ih, Bool.and_assoc]

theorem lookup_mapInsert_self (m : Manifest) (k v : String) :
    List.lookup k (mapInsert m k v) = some v := by
  simp [mapInsert, List.lookup]

theorem lookup_filter_ne (m : Manifest) (k k2 : String) (h : (k2 == k) = false) :
    List.lookup k2 (List.filter (fun p => !(p.1 == k)) m) = List.lookup k2 m := by
  induction m with
  | nil => rfl
  | cons p rest ih =>
    rw [List.filter_cons]
    cases hbp : (p.1 == k) with
    | true =>
      simp only [hbp, Bool.not_true, if_false]
      have hp1 : p.1 = k := by simpa using hbp
      have hkp : (k2 == p.1) = false := by rw [hp1]; exact h
      simp [List.lookup, hkp, ih]
    | false =>
      simp only [hbp, Bool.not_false, if_true]
      cases hkp : (k2 == p.1) with
      | true => simp [List.lookup, hkp]
      | false => simp [List.lookup, hkp, ih]

theorem lookup_mapInsert_ne (m : Manifest) (k v k2 : String) (h : k2 ≠ k) :
    List.lookup k2 (mapInsert m k v) = List.lookup k2 m := by
  have hbk : (k2 == k) = false := beq_eq_false_iff_ne.mpr h
  unfold mapInsert
  simp [List.lookup, hbk, lookup_filter_ne m k k2 hbk]

theorem installStep_trace_ok (fetch : String → Except GfrError Json)
    (st : InstallState) (e : IndexPattern) :
    countMW (installStep fetch st e).1 = 0 ∧
    writesValid (installStep fetch st e).1 = true := by
  cases hp : Version.parse e.version with
  | none => simp [installStep, hp, countMW, writesValid]
  | some remote =>
    cases hsi : should_install st.manifest e.name remote with
    | false => simp [installStep, hp, hsi, countMW, writesValid]
    | true =>
      cases hf : fetch e.url with
      | error err => simp [installStep, hp, hsi, hf, countMW, writesValid]
      | ok body =>
        cases hv : Pattern.fromJson body with
        | error msg => simp [installStep, hp, hsi, hf, hv, countMW, writesValid]
        | ok q => simp [installStep, hp, hsi, hf, hv, countMW, writesValid,
                        Except.isOk, Except.toBool]

theorem processEntries_trace (fetch : String → Except GfrError Json)
    (es : List IndexPattern) :
    ∀ st : InstallState,
      countMW (processEntries fetch st es).1 = 0 ∧
      writesValid (processEntries fetch st es).1 = true := by
  induction es with
  | nil => intro st; exact ⟨rfl, rfl⟩
  | cons e rest ih =>
    intro st
    obtain ⟨hs1, hs2⟩ := installStep_trace_ok fetch st e
    cases hstep : installStep fetch st e with
    | mk evts res =>
      rw [hstep] at hs1 hs2
      cases res with
      | error msg => simp [processEntries, hstep, hs1, hs2]
      | ok st1 =>
        cases hrest : processEntries fetch st1 rest with
        | mk evts1 res1 =>
          obtain ⟨h1, h2⟩ := ih st1
          rw [hrest] at h1 h2
          simp [processEntries, hstep, hrest, countMW_append, writesValid_append,
                hs1, hs2, h1, h2]

theorem processEntries_malformed_aborts (fetch : String → Except GfrError Json)
    (es : List IndexPattern) :
    ∀ st : InstallState, (∃ e ∈ es, Version.parse e.version = none) →
      ∃ msg, (processEntries fetch st es).2 = .error msg := by
  induction es with
  | nil =>
    intro st h
    obtain ⟨e, he, -⟩ := h
    cases he
  | cons e rest ih =>
    intro st h
    obtain ⟨e1, he1, hp1⟩ := h
    rcases List.mem_cons.mp he1 with rfl | hmem
    · have hstep : installStep fetch st e1 = ([], .error (.malformedVersion e1.version)) := by
        simp [installStep, hp1]
      exact ⟨.malformedVersion e1.version, by simp [processEntries, hstep]⟩
    · cases hstep : installStep fetch st e with
      | mk evts res =>
        cases res with
        | error msg => exact ⟨msg, by simp [processEntries, hstep]⟩
        | ok st1 =>
          obtain ⟨msg, hmsg⟩ := ih st1 ⟨e1, hmem, hp1⟩
          cases hrest : processEntries fetch st1 rest with
          | mk evts1 res1 =>
            have hres1 : res1 = .error msg := by
              rw [hrest] at hmsg
              exact hmsg
            subst hres1
            exact ⟨msg, by simp [processEntries, hstep, hrest]⟩

theorem processEntries_append_fail (fetch : String → Except GfrError Json)
    (es1 : List IndexPattern) :
    ∀ (st st1 : InstallState) (evts1 evts2 : List Event) (e : IndexPattern)
      (es2 : List IndexPattern) (msg : GfrError),
      processEntries fetch st es1 = (evts1, .ok st1) →
      installStep fetch st1 e = (evts2, .error msg) →
      processEntries fetch st (es1 ++ e :: es2) = (evts1 ++ evts2, .error msg) := by
  induction es1 with
  | nil =>
    intro st st1 evts1 evts2 e es2 msg h1 h2
    have he : ([] : List Event) = evts1 := congrArg Prod.fst h1
    have hs : st = st1 := Except.ok.inj (congrArg Prod.snd h1)
    subst he
    subst hs
    simp [processEntries, h2]
  | cons a rest ih =>
    intro st st1 evts1 evts2 e es2 msg h1 h2
    cases hstep : installStep fetch st a with
    | mk ea resa =>
      cases resa with
      | error m =>
        rw [show processEntries fetch st (a :: rest) = (ea, .error m) from by
          simp [processEntries, hstep]] at h1
        have hcontra := congrArg Prod.snd h1
        simp at hcontra
      | ok stA =>
        cases hrest : processEntries fetch stA rest with
        | mk eb resb =>
          rw [show processEntries fetch st (a :: rest) = (ea ++ eb, resb) from by
            simp [processEntries, hstep, hrest]] at h1
          have hb : resb = .ok st1 := by
            have := congrArg Prod.snd h1
            simpa using this
          have hevts : evts1 = ea ++ eb := by
            have := congrArg Prod.fst h1
            simpa using this.symm
          subst hevts
          have hih := ih stA st1 eb evts2 e es2 msg (by rw [hrest, hb]) h2
          simp [processEntries, hstep, hih, List.append_assoc]

theorem run_install_ok_trace (fetch : String → Except GfrError Json)
    (mf : Option Json) (entries : List IndexPattern) (st : InstallState)
    (h : (run_install fetch mf entries).2 = .ok st) :
    ∃ pre, (run_install fetch mf entries).1 = pre ++ [Event.wroteManifest st.manifest] ∧
      countMW pre = 0 := by
  unfold run_install at h ⊢
  cases hpe : processEntries fetch
      { manifest := ((load_manifest mf).toOption).getD [], added := 0, updated := 0 }
      entries with
  | mk evts res =>
    rw [hpe] at h
    cases res with
    | error e => simp at h
    | ok st1 =>
      simp at h
      subst h
      refine ⟨Event.createdPatternDir :: evts, by simp, ?_⟩
      have h2 := (processEntries_trace fetch entries
        { manifest := ((load_manifest mf).toOption).getD [], added := 0, updated := 0 }).1
      rw [hpe] at h2
      simpa [countMW] using h2

/-- Claim C2: for a remote entry whose version parses, should-install
holds exactly when the name is absent from the manifest, or the recorded
version fails to parse, or the recorded version is strictly below the
remote one; when it does not hold the step fetches nothing and leaves
the state untouched, and when it holds and the step succeeds the
manifest maps the name to the remote version and the outcome is counted
as added exactly when the name was previously absent, as updated
otherwise. -/
theorem install_step_version_gate (fetch : String → Except GfrError Json)
    (st : InstallState) (e : IndexPattern) (remote : Version)
    (h : Version.parse e.version = some remote) :
    (should_install st.manifest e.name remote = true ↔
      (List.lookup e.name st.manifest = none ∨
       (∃ s, List.lookup e.name st.manifest = some s ∧ Version.parse s = none) ∨
       (∃ s lv, List.lookup e.name st.manifest = some s ∧ Version.parse s = some lv ∧
         Version.lt lv remote = true))) ∧
    (should_install st.manifest e.name remote = false →
      installStep fetch st e = ([], .ok st)) ∧
    (∀ st1 evts, should_install st.manifest e.name remote = true →
      installStep fetch st e = (evts, .ok st1) →
      List.lookup e.name st1.manifest = some e.version ∧
      (List.lookup e.name st.manifest = none →
        st1.added = st.added + 1 ∧ st1.updated = st.updated) ∧
      (∀ s, List.lookup e.name st.manifest = some s →
        st1.added = st.added ∧ st1.updated = st.updated + 1)) := by
  refine ⟨?_, ?_, ?_⟩
  · unfold should_install
    cases hl : List.lookup e.name st.manifest with
    | none => simp
    | some s =>
      cases hps : Version.parse s with
      | none => simp [hps]
      | some lv => simp [hps]
  · intro hsi
    simp [installStep, h, hsi]
  · intro st1 evts hsi hstep
    cases hf : fetch e.url with
    | error err =>
      rw [show installStep fetch st e = ([.fetched e.url], .error err) from by
        simp [installStep, h, hsi, hf]] at hstep
      simp at hstep
    | ok body =>
      cases hv : Pattern.fromJson body with
      | error msg =>
        rw [show installStep fetch st e = ([.fetched e.url], .error (.invalidFormat msg)) from by
          simp [installStep, h, hsi, hf, hv]] at hstep
        simp at hstep
      | ok q =>
        rw [show installStep fetch st e =
            ([.fetched e.url, .wrotePattern e.name body],
             .ok { manifest := mapInsert st.manifest e.name e.version,
                   added := if (List.lookup e.name st.manifest).isSome
                            then st.added else st.added + 1,
                   updated := if (List.lookup e.name st.manifest).isSome
                              then st.updated + 1 else st.updated }) from by
          simp [installStep, h, hsi, hf, hv]] at hstep
        have h2 := congrArg Prod.snd hstep
        simp only [Except.ok.injEq] at h2
        subst h2
        refine ⟨lookup_mapInsert_self _ _ _, ?_, ?_⟩
        · intro hnone
          simp [hnone]
        · intro s hsome
          simp [hsome]

theorem install_step_version_gate_witness :
    Version.parse "2.0.0" = some ⟨2, 0, 0, []⟩ ∧
    should_install [("x", "1.0.0")] "x" ⟨2, 0, 0, []⟩ = true ∧
    List.lookup "x"
      ({ manifest := [("x", "2.0.0")], added := 0, updated := 1 } : InstallState).manifest =
      some "2.0.0" ∧
    ({ manifest := [("x", "2.0.0")], added := 0, updated := 1 } : InstallState).updated =
      ({ manifest := [("x", "1.0.0")], added := 0, updated := 0 } : InstallState).updated + 1 := by
  have h := (install_step_version_gate
    (fun _ => .ok (Json.obj [("pattern", Json.str "a")]))
    ⟨[("x", "1.0.0")], 0, 0⟩ ⟨"x", "2.0.0", "u"⟩ ⟨2, 0, 0, []⟩ (by decide)).2.2
    ⟨[("x", "2.0.0")], 0, 1⟩
    [.fetched "u", .wrotePattern "x" (Json.obj [("pattern", Json.str "a")])]
    (by decide) rfl
  exact ⟨by decide, by decide, h.1, (h.2.2 "1.0.0" (by decide)).2⟩

/-- Claim C6: every pattern body written during reconciliation was
validated as a Pattern; when the pass aborts the manifest file is left
untouched; when the pass succeeds the manifest is persisted exactly
once, as the single final write after all entries; a malformed remote
version anywhere in the index makes the whole pass abort; the three
error sites of one entry are pinned down (a malformed remote version, a
fetch failure, and a body-validation failure each end the step in an
error, the latter two after the fetch and with nothing written for that
entry); and a step failure at any reached entry aborts the whole pass:
the run returns that error and its trace ends at the failing entry, so
no later entry is processed or fetched and the manifest is never
written. -/
theorem run_install_manifest_discipline (fetch : String → Except GfrError Json)
    (mf : Option Json) (entries : List IndexPattern) :
    writesValid (run_install fetch mf entries).1 = true ∧
    (∀ msg, (run_install fetch mf entries).2 = .error msg →
      countMW (run_install fetch mf entries).1 = 0) ∧
    (∀ st, (run_install fetch mf entries).2 = .ok st →
      ∃ pre, (run_install fetch mf entries).1 = pre ++ [Event.wroteManifest st.manifest] ∧
        countMW pre = 0) ∧
    (∀ e ∈ entries, Version.parse e.version = none →
      ∃ msg, (run_install fetch mf entries).2 = .error msg) ∧
    (∀ (stx : InstallState) (e2 : IndexPattern), Version.parse e2.version = none →
      installStep fetch stx e2 = ([], .error (.malformedVersion e2.version))) ∧
    (∀ (stx : InstallState) (e2 : IndexPattern) (rv : Version) (err : GfrError),
      Version.parse e2.version = some rv →
      should_install stx.manifest e2.name rv = true →
      fetch e2.url = .error err →
      installStep fetch stx e2 = ([.fetched e2.url], .error err)) ∧
    (∀ (stx : InstallState) (e2 : IndexPattern) (rv : Version) (body : Json) (m : String),
      Version.parse e2.version = some rv →
      should_install stx.manifest e2.name rv = true →
      fetch e2.url = .ok body →
      Pattern.fromJson body = .error m →
      installStep fetch stx e2 = ([.fetched e2.url], .error (.invalidFormat m))) ∧
    (∀ (es1 : List IndexPattern) (e : IndexPattern) (es2 : List IndexPattern)
       (st1 : InstallState) (evts1 evts2 : List Event) (msg : GfrError),
      entries = es1 ++ e :: es2 →
      processEntries fetch
        { manifest := ((load_manifest mf).toOption).getD [], added := 0, updated := 0 }
        es1 = (evts1, .ok st1) →
      installStep fetch st1 e = (evts2, .error msg) →
      run_install fetch mf entries =
        (Event.createdPatternDir :: (evts1 ++ evts2), .error msg)) := by
  obtain ⟨ht1, ht2⟩ := processEntries_trace fetch entries
    { manifest := ((load_manifest mf).toOption).getD [], added := 0, updated := 0 }
  refine ⟨?_, ?_, ?_, ?_, ?_, ?_, ?_, ?_⟩
  · unfold run_install
    cases hpe : processEntries fetch
        { manifest := ((load_manifest mf).toOption).getD [], added := 0, updated := 0 }
        entries with
    | mk evts res =>
      rw [hpe] at ht2
      cases res with
      | error e => simpa [writesValid] using ht2
      | ok st1 => simp [writesValid_append, writesValid, ht2]
  · intro msg hmsg
    unfold run_install at hmsg ⊢
    cases hpe : processEntries fetch
        { manifest := ((load_manifest mf).toOption).getD [], added := 0, updated := 0 }
        entries with
    | mk evts res =>
      rw [hpe] at hmsg ht1
      cases res with
      | error e => simpa [countMW] using ht1
      | ok st1 => simp at hmsg
  · exact fun st hst => run_install_ok_trace fetch mf entries st hst
  · intro e he hp
    obtain ⟨msg, hmsg⟩ := processEntries_malformed_aborts fetch entries
      { manifest := ((load_manifest mf).toOption).getD [], added := 0, updated := 0 }
      ⟨e, he, hp⟩
    unfold run_install
    cases hpe : processEntries fetch
        { manifest := ((load_manifest mf).toOption).getD [], added := 0, updated := 0 }
        entries with
    | mk evts res =>
      rw [hpe] at hmsg
      cases res with
      | error e1 => exact ⟨e1, by simp⟩
      | ok st1 => simp at hmsg
  · intro stx e2 hp
    simp [installStep, hp]
  · intro stx e2 rv err hp hsi hf
    simp [installStep, hp, hsi, hf]
  · intro stx e2 rv body m hp hsi hf hv
    simp [installStep, hp, hsi, hf, hv]
  · intro es1 e es2 st1 evts1 evts2 msg hent h1 h2
    subst hent
    have hpe := processEntries_append_fail fetch es1
      { manifest := ((load_manifest mf).toOption).getD [], added := 0, updated := 0 }
      st1 evts1 evts2 e es2 msg h1 h2
    simp [run_install, hpe]

theorem run_install_manifest_discipline_witness :
    run_install (fun _ => .error (.fetchFailed "down")) none [⟨"x", "1.0.0", "u"⟩] =
      ([Event.createdPatternDir, Event.fetched "u"], .error (.fetchFailed "down")) ∧
    countMW (run_install (fun _ => .ok Json.null) none [⟨"x", "bogus", "u"⟩]).1 = 0 :=
  ⟨(run_install_manifest_discipline (fun _ => .error (.fetchFailed "down")) none
      [⟨"x", "1.0.0", "u"⟩]).2.2.2.2.2.2.2
      [] ⟨"x", "1.0.0", "u"⟩ [] ⟨[], 0, 0⟩ [] [.fetched "u"] (.fetchFailed "down")
      rfl rfl rfl,
   (run_install_manifest_discipline (fun _ => .ok Json.null) none
    [⟨"x", "bogus", "u"⟩]).2.1 (.malformedVersion "bogus") rfl⟩

/-! ## Claim C9: a corrupt manifest file -/

/-- Distinctness of the names of the remote index entries. -/
def namesNodupB : List IndexPattern → Bool
  | [] => true
  | e :: rest => !((rest.map (fun e1 => e1.name)).contains e.name) && namesNodupB rest

theorem processEntries_all_fresh (fetch : String → Except GfrError Json)
    (es : List IndexPattern) :
    ∀ st : InstallState,
      (∀ e ∈ es, List.lookup e.name st.manifest = none) →
      namesNodupB es = true →
      ∀ st2, (processEntries fetch st es).2 = .ok st2 →
        st2.added = st.added + es.length ∧ st2.updated = st.updated ∧
        countFetched (processEntries fetch st es).1 = es.length := by
  induction es with
  | nil =>
    intro st _ _ st2 hok
    have hst : st = st2 := Except.ok.inj hok
    subst hst
    exact ⟨by simp, rfl, rfl⟩
  | cons e rest ih =>
    intro st hfresh hnd st2 hok
    have hlnone : List.lookup e.name st.manifest = none :=
      hfresh e (List.mem_cons_self _ _)
    cases hp : Version.parse e.version with
    | none =>
      rw [show processEntries fetch st (e :: rest) =
          ([], .error (.malformedVersion e.version)) from by
        simp [processEntries, installStep, hp]] at hok
      simp at hok
    | some remote =>
      have hsi : should_install st.manifest e.name remote = true := by
        simp [should_install, hlnone]
      cases hf : fetch e.url with
      | error err =>
        rw [show processEntries fetch st (e :: rest) = ([.fetched e.url], .error err) from by
          simp [processEntries, installStep, hp, hsi, hf]] at hok
        simp at hok
      | ok body =>
        cases hv : Pattern.fromJson body with
        | error msg =>
          rw [show processEntries fetch st (e :: rest) =
              ([.fetched e.url], .error (.invalidFormat msg)) from by
            simp [processEntries, installStep, hp, hsi, hf, hv]] at hok
          simp at hok
        | ok q =>
          have hstep : installStep fetch st e =
              ([.fetched e.url, .wrotePattern e.name body],
               .ok ⟨mapInsert st.manifest e.name e.version, st.added + 1, st.updated⟩) := by
            simp [installStep, hp, hsi, hf, hv, hlnone]
          have hsplit : e.name ∉ rest.map (fun e1 => e1.name) ∧ namesNodupB rest = true := by
            have h0 := hnd
            unfold namesNodupB at h0
            simpa using h0
          have hnd1 : namesNodupB rest = true := hsplit.2
          have hfresh1 : ∀ e1 ∈ rest,
              List.lookup e1.name (mapInsert st.manifest e.name e.version) = none := by
            intro e1 he1
            have hne : e1.name ≠ e.name := by
              intro heq
              exact hsplit.1 (heq ▸ List.mem_map_of_mem _ he1)
            rw [lookup_mapInsert_ne _ _ _ _ hne]
            exact hfresh e1 (List.mem_cons_of_mem _ he1)
          cases hpr : processEntries fetch
              ⟨mapInsert st.manifest e.name e.version, st.added + 1, st.updated⟩ rest with
          | mk evts1 res1 =>
            have hpe : processEntries fetch st (e :: rest) =
                ([.fetched e.url, .wrotePattern e.name body] ++ evts1, res1) := by
              simp [processEntries, hstep, hpr]
            rw [hpe] at hok
            cases res1 with
            | error m => simp at hok
            | ok st3 =>
              have hst3 : st3 = st2 := Except.ok.inj hok
              subst hst3
              obtain ⟨ha, hu, hcf⟩ := ih
                ⟨mapInsert st.manifest e.name e.version, st.added + 1, st.updated⟩
                hfresh1 hnd1 st3 (by rw [hpr])
              rw [hpr] at hcf
              have hcf2 : countFetched evts1 = rest.length := by simpa using hcf
              refine ⟨?_, ?_, ?_⟩
              · rw [ha]
                simp
                omega
              · exact hu
              · rw [hpe]
                simp [countFetched, countFetched_append, hcf2]

/-- Claim C9 counterexample: with a corrupt manifest and a remote index
holding two entries with the same name, the second entry is reconciled
against what the first one installed, so only one fetch happens and only
one entry is classified as added, not every entry as the claim states. -/
theorem run_install_corrupt_manifest_counterexample :
    manifestFromJson (Json.str "corrupt") = .error "expected object" ∧
    run_install (fun _ => .ok (Json.obj [("pattern", Json.str "a")]))
        (some (Json.str "corrupt"))
        [⟨"x", "1.0.0", "u"⟩, ⟨"x", "1.0.0", "u"⟩] =
      ([.createdPatternDir, .fetched "u",
        .wrotePattern "x" (Json.obj [("pattern", Json.str "a")]),
        .wroteManifest [("x", "1.0.0")]],
       .ok ⟨[("x", "1.0.0")], 1, 0⟩) ∧
    ([⟨"x", "1.0.0", "u"⟩, ⟨"x", "1.0.0", "u"⟩] : List IndexPattern).length = 2 :=
  ⟨rfl, rfl, rfl⟩

/-- Claim C9 as amended: when the manifest file is present but fails to
parse, reconciliation does not fail on that account: it proceeds exactly
as if the manifest file were absent, so every index entry is compared
against only what earlier entries installed; when the entry names are
distinct a successful pass fetches every entry and classifies every
entry as added with none updated; and on success the corrupt manifest
file is overwritten by the single final manifest write. -/
theorem run_install_corrupt_manifest (fetch : String → Except GfrError Json)
    (j : Json) (msg : String) (entries : List IndexPattern)
    (h : manifestFromJson j = .error msg) :
    run_install fetch (some j) entries = run_install fetch none entries ∧
    (∀ st, namesNodupB entries = true →
      (run_install fetch none entries).2 = .ok st →
      st.added = (entries.length : Int) ∧ st.updated = 0 ∧
      countFetched (run_install fetch none entries).1 = entries.length) ∧
    (∀ st, (run_install fetch (some j) entries).2 = .ok st →
      ∃ pre, (run_install fetch (some j) entries).1 =
        pre ++ [Event.wroteManifest st.manifest] ∧ countMW pre = 0) := by
  refine ⟨?_, ?_, ?_⟩
  · unfold run_install
    simp [load_manifest, h, Except.toOption]
  · intro st hnd hok
    unfold run_install at hok ⊢
    cases hpe : processEntries fetch
        { manifest := ((load_manifest none).toOption).getD [], added := 0, updated := 0 }
        entries with
    | mk evts res =>
      rw [hpe] at hok
      cases res with
      | error e => simp at hok
      | ok st1 =>
        have hst : st1 = st := Except.ok.inj hok
        subst hst
        have hfresh : ∀ e ∈ entries,
            List.lookup e.name
              ({ manifest := ((load_manifest none).toOption).getD [],
                 added := 0, updated := 0 } : InstallState).manifest = none := by
          intro e he
          rfl
        obtain ⟨ha, hu, hcf⟩ := processEntries_all_fresh fetch entries _ hfresh hnd st1
          (by rw [hpe])
        rw [hpe] at hcf
        refine ⟨by simpa using ha, by simpa using hu, ?_⟩
        simp [countFetched, countFetched_append, hcf]
  · exact fun st hst => run_install_ok_trace fetch (some j) entries st hst

theorem run_install_corrupt_manifest_witness :
    manifestFromJson (Json.str "nope") = .error "expected object" ∧
    run_install (fun _ => .ok (Json.obj [("pattern", Json.str "a")]))
        (some (Json.str "nope")) [⟨"x", "1.0.0", "u"⟩] =
      run_install (fun _ => .ok (Json.obj [("pattern", Json.str "a")]))
        none [⟨"x", "1.0.0", "u"⟩] ∧
    (({ manifest := [("x", "1.0.0")], added := 1, updated := 0 } : InstallState).added =
      (([⟨"x", "1.0.0", "u"⟩] : List IndexPattern).length : Int) ∧
     ({ manifest := [("x", "1.0.0")], added := 1, updated := 0 } : InstallState).updated = 0 ∧
     countFetched (run_install (fun _ => .ok (Json.obj [("pattern", Json.str "a")]))
        none [⟨"x", "1.0.0", "u"⟩]).1 = ([⟨"x", "1.0.0", "u"⟩] : List IndexPattern).length) :=
  ⟨rfl,
   (run_install_corrupt_manifest (fun _ => .ok (Json.obj [("pattern", Json.str "a")]))
     (Json.str "nope") "expected object" [⟨"x", "1.0.0", "u"⟩] rfl).1,
   (run_install_corrupt_manifest (fun _ => .ok (Json.obj [("pattern", Json.str "a")]))
     (Json.str "nope") "expected object" [⟨"x", "1.0.0", "u"⟩] rfl).2.1
     ⟨[("x", "1.0.0")], 1, 0⟩ rfl rfl⟩

end Gfr
